import Mathlib

/-!
# Verification of the generic geometry vector library

Shallow embedding of `src/source/Vector.h` (`Geometry::Vector<Dim, T>`),
the driver `src/main.cpp`, and the spec-level operations it exercises.

Modelling conventions:
* `Vector<Dim, T>` is a fixed-length sequence of scalars; we model the
  backing `std::array<T, Dim>` as a function `Fin Dim → α`.
* C++ `double` scalars are modelled as `ℚ` (exact rational arithmetic),
  C++ `int` as `ℤ`; a `double → int` conversion truncates toward zero.
* C++ `for` loops that write each slot of an array are modelled as left
  folds over `List.finRange Dim` performing `Function.update` steps, so
  that the loop structure of the source is kept, not just its result.
* `constexpr`/template gates (`requires`, `static_assert`) are modelled
  structurally: an operation only defined for `Dim == 3` is a Lean
  function whose arguments are `Vec 3 _`.
-/

namespace Geometry

/-- The element storage of `Geometry::Vector<Dim, T>` (`std::array<T, Dim>`). -/
abbrev Vec (n : ℕ) (α : Type) := Fin n → α

/-- A C++ loop `for (i = 0; i < Dim; ++i) result[i] = f(i);` run on an
array whose prior contents are `init`. -/
def writeLoop {n : ℕ} {α : Type} (f : Fin n → α) (init : Vec n α) : Vec n α :=
  (List.finRange n).foldl (fun acc i => Function.update acc i (f i)) init

/-- A C++ loop `for (auto &d : _data) d = g(d);` mutating each slot in
place, in index order, reading the current (partially updated) array. -/
def mapLoop {n : ℕ} {α : Type} (g : α → α) (v : Vec n α) : Vec n α :=
  (List.finRange n).foldl (fun acc i => Function.update acc i (g (acc i))) v

/-- A C++ accumulation loop `r = 0; for (i = 0; i < Dim; ++i) r += g(i);`. -/
def accumLoop {n : ℕ} {α : Type} [Add α] [Zero α] (g : Fin n → α) : α :=
  (List.finRange n).foldl (fun r i => r + g i) 0

/-- The default constructor `Vector()` : the backing array starts with
indeterminate contents `g` and the constructor loop zero-fills it. -/
def defaultCtor {n : ℕ} {α : Type} [Zero α] (g : Vec n α) : Vec n α :=
  writeLoop (fun _ => (0 : α)) g

/-- A freshly default-constructed local `Vector<Dim, T> result;`. -/
def freshVec (n : ℕ) (α : Type) [Zero α] : Vec n α :=
  defaultCtor (fun _ => 0)

/-- The full-arity constructor `Vector(Args&&... args)` : aggregate
initialisation `_data{args...}` stores the `Dim` arguments one per element
in argument order.  The compile-time arity gate
`requires (sizeof...(Args) == Dim)` is the length hypothesis `h`. -/
def ofArgs {n : ℕ} {α : Type} (l : List α) (h : l.length = n) : Vec n α :=
  fun i => l.get (Fin.cast h.symm i)

/-- Model of `static constexpr auto dim()` : returns the template parameter `Dim`.
(The scalar-type parameter is part of the C++ type but unused by `dim`.) -/
def vecDim (n : ℕ) (_α : Type) : ℕ := n

/-! ## Scalar conversions

C++ converts a `double` to an `int` by truncation toward zero
(`[conv.fpint]`).  With `double` modelled as `ℚ` and `int` as `ℤ`: -/

/-- Truncation toward zero, the C++ floating-to-integral conversion. -/
def truncQ (q : ℚ) : ℤ := if 0 ≤ q then ⌊q⌋ else ⌈q⌉

/-! ## Arithmetic operators (`operator+`, `operator-`, Hadamard `operator*`)

The C++ operators are templates over the right operand's `<Dim2, T2>`;
`static_assert(Dim == Dim2, ...)` rejects a dimension mismatch at compile
time, which the embedding captures by typing both operands `Vec n _`.
Each operator declares a local `Vector<Dim, T> result;` — the *left*
operand's scalar type — then runs `result[i] = _data[i] ⊕ other[i]`.

The same-scalar-type instantiations (`T = T2`, modelled over `ℚ`): -/

/-- Model of `operator+` instantiated at `T2 = T` (scalars modelled as `ℚ`). -/
def add_cpp {n : ℕ} (a b : Vec n ℚ) : Vec n ℚ :=
  writeLoop (fun i => a i + b i) (freshVec n ℚ)

/-- Model of `operator-` instantiated at `T2 = T` (scalars modelled as `ℚ`). -/
def sub_cpp {n : ℕ} (a b : Vec n ℚ) : Vec n ℚ :=
  writeLoop (fun i => a i - b i) (freshVec n ℚ)

/-- Hadamard `operator*` instantiated at `T2 = T` (scalars as `ℚ`). -/
def hmul_cpp {n : ℕ} (a b : Vec n ℚ) : Vec n ℚ :=
  writeLoop (fun i => a i * b i) (freshVec n ℚ)

/-! The mixed-scalar instantiations `T = int`, `T2 = double`:
`result` is a `Vector<Dim, int>`, and the assignment
`result[i] = _data[i] + other[i]` computes the right-hand side in the
promoted type `double` and then converts it back to `int` by truncation. -/

/-- Model of `Vector<Dim,int>::operator+(const Vector<Dim,double>&)`. -/
def addIntRat {n : ℕ} (a : Vec n ℤ) (b : Vec n ℚ) : Vec n ℤ :=
  writeLoop (fun i => truncQ ((a i : ℚ) + b i)) (freshVec n ℤ)

/-- Model of `Vector<Dim,int>::operator-(const Vector<Dim,double>&)`. -/
def subIntRat {n : ℕ} (a : Vec n ℤ) (b : Vec n ℚ) : Vec n ℤ :=
  writeLoop (fun i => truncQ ((a i : ℚ) - b i)) (freshVec n ℤ)

/-- Model of `Vector<Dim,int>::operator*(const Vector<Dim,double>&)` (Hadamard). -/
def hmulIntRat {n : ℕ} (a : Vec n ℤ) (b : Vec n ℚ) : Vec n ℤ :=
  writeLoop (fun i => truncQ ((a i : ℚ) * b i)) (freshVec n ℤ)

/-- Modelled from the spec (§4.4, Policy A): the *claimed* result of
component-wise addition of an `int` vector and a `double` vector — a
vector of the promoted scalar type (`double`, modelled `ℚ`).  Used only
to compare the spec's words against `addIntRat`, which is what the code
does. -/
def addPromotedSpec {n : ℕ} (a : Vec n ℤ) (b : Vec n ℚ) : Vec n ℚ :=
  fun i => (a i : ℚ) + b i

/-! ## Scalar multiplication -/

/-- Model of `operator*(T scalar)` for `T = int`: the loop body
`result[i] = _data[i] * scalar` in `int` arithmetic. -/
def smulInt_cpp {n : ℕ} (v : Vec n ℤ) (s : ℤ) : Vec n ℤ :=
  writeLoop (fun i => v i * s) (freshVec n ℤ)

/-- A call `v * s` on a `Vector<Dim,int>` with a `double` argument `s`:
the parameter has type `T = int`, so `s` is converted (truncated toward
zero) at the call boundary before `operator*(T)` runs. -/
def smulIntCall {n : ℕ} (v : Vec n ℤ) (s : ℚ) : Vec n ℤ :=
  smulInt_cpp v (truncQ s)

/-- The commuted friend `operator*(T scalar, const Vector &v)`:
its body is `return v * scalar;`. -/
def smulIntComm {n : ℕ} (s : ℚ) (v : Vec n ℤ) : Vec n ℤ :=
  smulIntCall v s

/-- Model of `operator*(T scalar)` for `T = double` (scalars modelled as `ℚ`). -/
def smulQ {n : ℕ} (v : Vec n ℚ) (s : ℚ) : Vec n ℚ :=
  writeLoop (fun i => v i * s) (freshVec n ℚ)

/-! ## Dot product, magnitude, normalization -/

/-- Model of `dot` : `decltype(_data[0] * other[0]) r = 0; r += _data[i] * other[i];`
for the same-scalar (or already promoted) case, scalars modelled as `ℚ`. -/
def dot_cpp {n : ℕ} (a b : Vec n ℚ) : ℚ :=
  (List.finRange n).foldl (fun r i => r + a i * b i) 0

/-- Model of `Vector<Dim,int>::dot(const Vector<Dim,double>&)` : the accumulator
has the promoted type `double` and each product is computed there. -/
def dotIntRat {n : ℕ} (a : Vec n ℤ) (b : Vec n ℚ) : ℚ :=
  dot_cpp (fun i => (a i : ℚ)) b

/-- Model of `Vector<Dim,double>::dot(const Vector<Dim,int>&)`. -/
def dotRatInt {n : ℕ} (a : Vec n ℚ) (b : Vec n ℤ) : ℚ :=
  dot_cpp a (fun i => (b i : ℚ))

/-- Model of `squared_mag` : `T result = 0; result += _data[i] * _data[i];`. -/
def squared_mag {n : ℕ} {α : Type} [Add α] [Mul α] [Zero α] (v : Vec n α) : α :=
  accumLoop (fun i => v i * v i)

/-- Model of `magnitude` : `std::sqrt(squared_mag())`.  The square root on the
scalar type is kept abstract (`sqrtFn`), since `ℚ` has no exact square
root; every statement below holds for an arbitrary `sqrtFn`. -/
def magnitude {n : ℕ} {α : Type} [Add α] [Mul α] [Zero α]
    (sqrtFn : α → α) (v : Vec n α) : α :=
  sqrtFn (squared_mag v)

/-- Model of `normalized()` : computes `vect_mag = magnitude()`, default-constructs
a local `Vector<Dim, T> normalized;`, fills slot `i` with
`_data[i] / vect_mag`, and returns it; the receiver is untouched (the
embedding is functional: the argument `v` is returned unchanged to any
later reader). -/
def normalized {n : ℕ} {α : Type} [Field α]
    (sqrtFn : α → α) (v : Vec n α) : Vec n α :=
  writeLoop (fun i => v i / magnitude sqrtFn v) (freshVec n α)

/-- Model of `normalize()` : computes `vect_mag = magnitude()` once, then runs
`for (auto &d : _data) d /= vect_mag;` in place; the result is the state
of the receiver after the call. -/
def normalize {n : ℕ} {α : Type} [Field α]
    (sqrtFn : α → α) (v : Vec n α) : Vec n α :=
  mapLoop (fun d => d / magnitude sqrtFn v) v

/-! ## Cross product (`requires (Dim == 3)`) -/

/-- Model of `cross` for `T2 = T` (scalars modelled as `ℚ`): only defined for
3-dimensional vectors — the `requires (Dim == 3)` / `static_assert`
compile-time gate is the `Vec 3` type of both operands.  The body
constructs `Vector<3, CrossType>` from the three component expressions. -/
def cross_cpp (a b : Vec 3 ℚ) : Vec 3 ℚ :=
  ofArgs [a 1 * b 2 - a 2 * b 1,
          a 2 * b 0 - a 0 * b 2,
          a 0 * b 1 - a 1 * b 0] rfl

/-- Model of `Vector<3,int>::cross(const Vector<3,double>&)` :
`CrossType = decltype(_data[0] * other[0])` is the promoted type
(`double`, modelled `ℚ`), and each component is computed there. -/
def crossIntRat (a : Vec 3 ℤ) (b : Vec 3 ℚ) : Vec 3 ℚ :=
  ofArgs [(a 1 : ℚ) * b 2 - (a 2 : ℚ) * b 1,
          (a 2 : ℚ) * b 0 - (a 0 : ℚ) * b 2,
          (a 0 : ℚ) * b 1 - (a 1 : ℚ) * b 0] rfl

/-! ## Projection onto another vector -/

/-- Modelled from the spec: `Vector::project` is called in
`src/main.cpp` (`vec_proj1.project(vec_proj2)`) but its definition is
absent from `src/source/Vector.h`; modelled from §4.5:
`proj_b(a) = (dot(a,b) / dot(b,b)) * b`, where the scalar-times-vector
form is the friend `operator*` (which evaluates `b * scalar`). -/
def project {n : ℕ} (a b : Vec n ℚ) : Vec n ℚ :=
  smulQ b (dot_cpp a b / dot_cpp b b)

/-! ## Formatted rendering (`operator<<`)

```
os << "Vector" << Dim << '[';
for (auto i = 0; i < v._data.size() - 1; ++i)
    os << v._data[i] << ';';
os << v._data[v._data.size()-1] << ']';
```

The stream insertion of a scalar is kept abstract (`showFn`).  Every
array read goes through `readIdx`, which yields `none` when the index is
outside `[0, Dim)`; a render that returns `some _` therefore performed
no out-of-range access. -/

/-- A checked read of `_data[i]`: `none` models an out-of-range access. -/
def readIdx {n : ℕ} {α : Type} (v : Vec n α) (i : ℕ) : Option α :=
  if h : i < n then some (v ⟨i, h⟩) else none

/-- The read of `_data[i]` for in-range `i`, as a total value. -/
def getNat {n : ℕ} {α : Type} [Inhabited α] (v : Vec n α) (i : ℕ) : α :=
  (readIdx v i).getD default

/-- One iteration of the render loop: append `showFn(_data[i]) ++ ";"`,
propagating an out-of-range failure. -/
def renderStep {n : ℕ} {α : Type} (showFn : α → String) (v : Vec n α)
    (acc : Option String) (i : ℕ) : Option String :=
  acc.bind fun s => (readIdx v i).map fun x => s ++ (showFn x ++ ";")

/-- Model of `operator<<` on a `Vector<Dim, T>`, producing the streamed text (or
`none` if any element read was out of range).  The loop bound
`v._data.size() - 1` is `Dim - 1` (`Dim ≥ 1` per the data model, so the
`size_t` subtraction does not wrap). -/
def render {n : ℕ} {α : Type} (showFn : α → String) (v : Vec n α) : Option String :=
  ((List.range (n - 1)).foldl (renderStep showFn v)
      (some ("Vector" ++ toString n ++ "["))).bind
    fun s => (readIdx v (n - 1)).map fun x => s ++ (showFn x ++ "]")

/-- Spec-side description of the element list: the `Dim` rendered
elements in index order, separated by `";"`, with no trailing separator. -/
def sepBySemi : List String → String
  | [] => ""
  | [s] => s
  | s :: t => s ++ (";" ++ sepBySemi t)

/-- The concatenation `e₀; e₁; … ;` produced by the render loop (every
element followed by a `";"`), in loop order. -/
def semiRun : List String → String
  | [] => ""
  | s :: t => (s ++ ";") ++ semiRun t

/-! ## Library lemmas about the loop models -/

section LoopLemmas

variable {n : ℕ} {α : Type}

theorem foldl_update_of_not_mem (F : Vec n α → Fin n → α) (l : List (Fin n))
    (init : Vec n α) (i : Fin n) (hi : i ∉ l) :
    (l.foldl (fun acc j => Function.update acc j (F acc j)) init) i = init i := by
  induction l generalizing init with
  | nil => rfl
  | cons j t ih =>
    have hij : i ≠ j := fun h => hi (h ▸ List.mem_cons_self j t)
    have hit : i ∉ t := fun h => hi (List.mem_cons_of_mem j h)
    simp only [List.foldl_cons]
    rw [ih _ hit, Function.update_noteq hij]

theorem foldl_write_of_mem (f : Fin n → α) (l : List (Fin n))
    (init : Vec n α) (i : Fin n) (hi : i ∈ l) :
    (l.foldl (fun acc j => Function.update acc j (f j)) init) i = f i := by
  induction l generalizing init with
  | nil => exact absurd hi (List.not_mem_nil i)
  | cons j t ih =>
    simp only [List.foldl_cons]
    by_cases hit : i ∈ t
    · exact ih _ hit
    · have hij : i = j := by
        rcases List.mem_cons.mp hi with h | h
        · exact h
        · exact absurd h hit
      subst hij
      rw [foldl_update_of_not_mem (fun _ j => f j) t _ i hit, Function.update_same]

/-- Each slot of a write loop ends up holding exactly `f i`. -/
theorem writeLoop_eq (f : Fin n → α) (init : Vec n α) (i : Fin n) :
    writeLoop f init i = f i :=
  foldl_write_of_mem f _ init i (List.mem_finRange i)

theorem foldl_map_of_nodup (g : α → α) (l : List (Fin n)) (init : Vec n α)
    (hl : l.Nodup) (i : Fin n) :
    (l.foldl (fun acc j => Function.update acc j (g (acc j))) init) i
      = if i ∈ l then g (init i) else init i := by
  induction l generalizing init with
  | nil => simp
  | cons j t ih =>
    rcases List.nodup_cons.mp hl with ⟨hjt, ht⟩
    simp only [List.foldl_cons]
    by_cases hij : i = j
    · subst hij
      have hit : i ∉ t := hjt
      rw [foldl_update_of_not_mem (fun acc j => g (acc j)) t _ i hit]
      simp [Function.update_same]
    · rw [ih _ ht, Function.update_noteq hij]
      simp [List.mem_cons, hij]

/-- Each slot of an in-place map loop ends up holding `g` of its
original value (earlier iterations never touch later slots). -/
theorem mapLoop_eq (g : α → α) (v : Vec n α) (i : Fin n) :
    mapLoop g v i = g (v i) := by
  unfold mapLoop
  rw [foldl_map_of_nodup g _ v (List.nodup_finRange n) i]
  simp [List.mem_finRange]

/-- A default-constructed vector is all zeros, regardless of what the
indeterminate initial array contents were. -/
theorem defaultCtor_eq [Zero α] (g : Vec n α) (i : Fin n) :
    defaultCtor g i = 0 :=
  writeLoop_eq _ g i

theorem ofArgs_get (l : List α) (h : l.length = n) (i : Fin n) :
    ofArgs l h i = l.get (Fin.cast h.symm i) := rfl

end LoopLemmas

section RenderLemmas

variable {n : ℕ} {α : Type}

theorem readIdx_of_lt (v : Vec n α) {i : ℕ} (h : i < n) :
    readIdx v i = some (v ⟨i, h⟩) := dif_pos h

theorem getNat_of_lt [Inhabited α] (v : Vec n α) {i : ℕ} (h : i < n) :
    getNat v i = v ⟨i, h⟩ := by
  rw [getNat, readIdx_of_lt v h, Option.getD_some]

theorem sepBySemi_append_singleton (l : List String) (x : String) :
    sepBySemi (l ++ [x]) = semiRun l ++ x := by
  induction l with
  | nil => simp [sepBySemi, semiRun, String.empty_append]
  | cons s t ih =>
    cases t with
    | nil =>
      simp [sepBySemi, semiRun, String.append_assoc, String.append_empty,
        String.empty_append]
    | cons s2 t2 =>
      simp only [List.cons_append, List.append_eq, sepBySemi, semiRun] at ih ⊢
      rw [ih]
      simp [String.append_assoc]

theorem render_loop [Inhabited α] (showFn : α → String) (v : Vec n α)
    (m : ℕ) (hm : m ≤ n) (s : String) :
    (List.range m).foldl (renderStep showFn v) (some s)
      = some (s ++ semiRun ((List.range m).map fun i => showFn (getNat v i))) := by
  induction m with
  | zero => simp [semiRun, String.append_empty]
  | succ k ih =>
    have hk : k ≤ n := Nat.le_of_succ_le hm
    have hkn : k < n := Nat.lt_of_lt_of_le (Nat.lt_succ_self k) hm
    rw [List.range_succ, List.foldl_append, ih hk]
    simp only [List.foldl_cons, List.foldl_nil, renderStep, Option.some_bind,
      readIdx_of_lt v hkn, Option.map_some', List.map_append, List.map_cons,
      List.map_nil]
    rw [getNat_of_lt v hkn]
    have hrun : ∀ (L : List String) (x : String),
        semiRun (L ++ [x]) = semiRun L ++ (x ++ ";") := by
      intro L x
      induction L with
      | nil => simp [semiRun, String.empty_append, String.append_empty]
      | cons a t iht =>
        simp only [List.cons_append, List.append_eq, semiRun, iht, String.append_assoc]
    rw [hrun]
    simp [String.append_assoc]

end RenderLemmas

section OpLemmas

variable {n : ℕ} {α : Type}

theorem add_cpp_apply (a b : Vec n ℚ) (i : Fin n) : add_cpp a b i = a i + b i :=
  writeLoop_eq _ _ i

theorem sub_cpp_apply (a b : Vec n ℚ) (i : Fin n) : sub_cpp a b i = a i - b i :=
  writeLoop_eq _ _ i

theorem hmul_cpp_apply (a b : Vec n ℚ) (i : Fin n) : hmul_cpp a b i = a i * b i :=
  writeLoop_eq _ _ i

theorem addIntRat_apply (a : Vec n ℤ) (b : Vec n ℚ) (i : Fin n) :
    addIntRat a b i = truncQ ((a i : ℚ) + b i) :=
  writeLoop_eq _ _ i

theorem subIntRat_apply (a : Vec n ℤ) (b : Vec n ℚ) (i : Fin n) :
    subIntRat a b i = truncQ ((a i : ℚ) - b i) :=
  writeLoop_eq _ _ i

theorem hmulIntRat_apply (a : Vec n ℤ) (b : Vec n ℚ) (i : Fin n) :
    hmulIntRat a b i = truncQ ((a i : ℚ) * b i) :=
  writeLoop_eq _ _ i

theorem smulInt_cpp_apply (v : Vec n ℤ) (s : ℤ) (i : Fin n) :
    smulInt_cpp v s i = v i * s :=
  writeLoop_eq _ _ i

theorem smulQ_apply (v : Vec n ℚ) (s : ℚ) (i : Fin n) : smulQ v s i = v i * s :=
  writeLoop_eq _ _ i

theorem normalized_apply [Field α] (sqrtFn : α → α) (v : Vec n α) (i : Fin n) :
    normalized sqrtFn v i = v i / magnitude sqrtFn v :=
  writeLoop_eq _ _ i

theorem normalize_apply [Field α] (sqrtFn : α → α) (v : Vec n α) (i : Fin n) :
    normalize sqrtFn v i = v i / magnitude sqrtFn v :=
  mapLoop_eq _ v i

theorem dot_cpp_comm (a b : Vec n ℚ) : dot_cpp a b = dot_cpp b a := by
  have hfun : (fun (r : ℚ) (i : Fin n) => r + a i * b i)
      = fun (r : ℚ) (i : Fin n) => r + b i * a i := by
    funext r i
    rw [mul_comm]
  rw [dot_cpp, dot_cpp, hfun]

end OpLemmas

/-! ## The claims -/

/-- What `operator<<` streams for any vector of positive dimension:
the label, the dimension, and the elements in index order separated by
`";"` with no trailing separator — and it does so via in-range reads only
(the result is `some _`). -/
theorem render_eq {n : ℕ} {α : Type} [Inhabited α] (showFn : α → String) (v : Vec n α) (hn : 0 < n) :
    render showFn v
      = some ("Vector" ++ toString n ++ "["
          ++ (sepBySemi (List.ofFn fun i => showFn (v i)) ++ "]")) := by
  obtain ⟨m, rfl⟩ : ∃ m, n = m + 1 := ⟨n - 1, (Nat.succ_pred_eq_of_pos hn).symm⟩
  have hmn : m < m + 1 := Nat.lt_succ_self m
  rw [render]
  simp only [Nat.add_sub_cancel]
  rw [render_loop showFn v m (Nat.le_succ m)]
  simp only [Option.some_bind, readIdx_of_lt v hmn, Option.map_some']
  have hlist : (List.ofFn fun i : Fin (m + 1) => showFn (v i))
      = ((List.range m).map fun i => showFn (getNat v i))
        ++ [showFn (v ⟨m, hmn⟩)] := by
    rw [List.ofFn_succ', List.concat_eq_append]
    congr 1
    rw [List.ofFn_eq_map, ← List.map_coe_finRange, List.map_map]
    have hfun : (fun i : Fin m => showFn (v i.castSucc))
        = (fun i => showFn (getNat v i)) ∘ Fin.val := by
      funext i
      have hi : (i : ℕ) < m + 1 := Nat.lt_succ_of_lt i.isLt
      rw [Function.comp_apply, getNat_of_lt v hi]
      exact congrArg showFn (congrArg v (Fin.ext rfl))
    rw [hfun]
  rw [hlist, sepBySemi_append_singleton]
  simp [String.append_assoc]

/-- Claim C1 (counterexample): the claim states that adding a
`Vector<3,int>` and a `Vector<3,double>` yields a `Vector<3,double>`
carrying the promoted values.  The code declares the result as
`Vector<Dim, T>` with `T` the *left* operand's scalar type, so
`(1,1,1) + (0.5,0.5,0.5)` has `int` component `1` where the promoted
value would be `3/2`. -/
theorem C1_promotion_counterexample :
    addIntRat (n := 3) (ofArgs [(1:ℤ), 1, 1] rfl) (ofArgs [1/2, 1/2, 1/2] rfl) 0 = 1
    ∧ addPromotedSpec (n := 3) (ofArgs [(1:ℤ), 1, 1] rfl)
        (ofArgs [1/2, 1/2, 1/2] rfl) 0 = 3/2
    ∧ ((1 : ℤ) : ℚ) ≠ (3/2 : ℚ) := by
  refine ⟨?_, ?_, by norm_num⟩
  · rw [addIntRat_apply]
    norm_num [ofArgs, truncQ]
  · norm_num [addPromotedSpec, ofArgs]

/-- Claim C1 (amended): component-wise `+`, `-`, and Hadamard `*` require
equal dimensions (compile-time: both operands are `Vec n _`) and produce
a vector of that dimension, but the result's scalar type is the *left*
operand's `T`: with equal scalar types the components combine exactly;
with `int` left and `double` right operands each component is the
promoted-arithmetic value converted back (truncated) to `int`. -/
theorem C1_componentwise_ops_amended {n : ℕ} (a b : Vec n ℚ) (aZ : Vec n ℤ)
    (bQ : Vec n ℚ) (i : Fin n) :
    (add_cpp a b i = a i + b i
      ∧ sub_cpp a b i = a i - b i
      ∧ hmul_cpp a b i = a i * b i)
    ∧ (addIntRat aZ bQ i = truncQ ((aZ i : ℚ) + bQ i)
      ∧ subIntRat aZ bQ i = truncQ ((aZ i : ℚ) - bQ i)
      ∧ hmulIntRat aZ bQ i = truncQ ((aZ i : ℚ) * bQ i)) :=
  ⟨⟨add_cpp_apply a b i, sub_cpp_apply a b i, hmul_cpp_apply a b i⟩,
   addIntRat_apply aZ bQ i, subIntRat_apply aZ bQ i, hmulIntRat_apply aZ bQ i⟩

/-- Claim C2: for same-dimension vectors with `b` not the zero vector,
`project(a, b)` returns `(dot(a,b) / dot(b,b)) * b`; when `b` is the
zero vector the division is still performed and a meaningless value is
returned rather than a signalled failure — in the exact-arithmetic model
the division-by-zero artifact is the zero vector. -/
theorem C2_project_formula {n : ℕ} (a b : Vec n ℚ) :
    ((¬ ∀ i, b i = 0) →
      ∀ i, project a b i = dot_cpp a b / dot_cpp b b * b i)
    ∧ ((∀ i, b i = 0) → ∀ i, project a b i = 0) := by
  constructor
  · intro _ i
    rw [project, smulQ_apply, mul_comm]
  · intro hb i
    rw [project, smulQ_apply, hb i, zero_mul]

/-- Witness for claim C2 at the driver's inputs `(-4,2,12)` and `(3,1,2)`. -/
theorem C2_project_witness :
    (¬ ∀ i, (ofArgs [(3:ℚ), 1, 2] rfl : Vec 3 ℚ) i = 0)
    ∧ ∀ i, project (n := 3) (ofArgs [(-4:ℚ), 2, 12] rfl) (ofArgs [(3:ℚ), 1, 2] rfl) i
        = dot_cpp (n := 3) (ofArgs [(-4:ℚ), 2, 12] rfl) (ofArgs [(3:ℚ), 1, 2] rfl)
          / dot_cpp (n := 3) (ofArgs [(3:ℚ), 1, 2] rfl) (ofArgs [(3:ℚ), 1, 2] rfl)
          * (ofArgs [(3:ℚ), 1, 2] rfl : Vec 3 ℚ) i :=
  ⟨by decide, (C2_project_formula _ _).1 (by decide)⟩

/-- Claim C3: for a vector of non-zero magnitude, `normalized()` returns a
new vector whose slot `i` holds `v[i] / magnitude` (the receiver is not
mutated — the embedding is functional, `v` itself is unchanged), and
`normalize()` leaves the receiver in exactly the state that
`normalized()` would have returned before the call. -/
theorem C3_normalized_normalize {n : ℕ} {α : Type} [Field α]
    (sqrtFn : α → α) (v : Vec n α) (_h : magnitude sqrtFn v ≠ 0) :
    (∀ i, normalized sqrtFn v i = v i / magnitude sqrtFn v)
    ∧ normalize sqrtFn v = normalized sqrtFn v :=
  ⟨fun i => normalized_apply sqrtFn v i,
   funext fun i =>
     (normalize_apply sqrtFn v i).trans (normalized_apply sqrtFn v i).symm⟩

/-- Witness for claim C3 on `(1,1,1)` (with a square-root function that is
constantly `1`, so the magnitude is visibly non-zero). -/
theorem C3_normalized_normalize_witness :
    (magnitude (fun _ => (1:ℚ)) (ofArgs [(1:ℚ), 1, 1] rfl : Vec 3 ℚ) ≠ 0)
    ∧ ((∀ i, normalized (fun _ => (1:ℚ)) (ofArgs [(1:ℚ), 1, 1] rfl : Vec 3 ℚ) i
          = (ofArgs [(1:ℚ), 1, 1] rfl : Vec 3 ℚ) i
            / magnitude (fun _ => (1:ℚ)) (ofArgs [(1:ℚ), 1, 1] rfl : Vec 3 ℚ))
      ∧ normalize (fun _ => (1:ℚ)) (ofArgs [(1:ℚ), 1, 1] rfl : Vec 3 ℚ)
          = normalized (fun _ => (1:ℚ)) (ofArgs [(1:ℚ), 1, 1] rfl : Vec 3 ℚ)) :=
  ⟨by decide, C3_normalized_normalize _ _ (by decide)⟩

/-- Claim C4: formatted rendering of any vector (of positive dimension, per
the data model) produces exactly `"Vector"`, then `Dim`, then `'['`, then
the elements in index order separated by `';'` with no trailing
separator, then `']'` — and every storage read is inside `[0, Dim)`
(an out-of-range read would make `render` return `none`). -/
theorem C4_render_format {n : ℕ} {α : Type} [Inhabited α]
    (showFn : α → String) (v : Vec n α) (hn : 0 < n) :
    render showFn v
      = some ("Vector" ++ toString n ++ "["
          ++ (sepBySemi (List.ofFn fun i => showFn (v i)) ++ "]")) :=
  render_eq showFn v hn

/-- Witness for claim C4: the 1-dimensional vector holding `42` renders as
exactly `Vector1[42]`. -/
theorem C4_render_witness :
    0 < 1
    ∧ render toString (ofArgs [(42:ℤ)] rfl : Vec 1 ℤ) = some "Vector1[42]" :=
  ⟨Nat.one_pos, by
    rw [C4_render_format toString (ofArgs [(42:ℤ)] rfl : Vec 1 ℤ) Nat.one_pos]
    decide⟩

/-- Claim C5: the cross product is compile-time restricted to `Dim == 3`
(the model only defines it on `Vec 3`), computes the standard components
`(a.y*b.z − a.z*b.y, a.z*b.x − a.x*b.z, a.x*b.y − a.y*b.x)`, keeps the
promoted scalar type on mixed `int`/`double` operands, and sends
`(1,0,0) × (0,1,0)` to `(0,0,1)`. -/
theorem C5_cross_product (a b : Vec 3 ℚ) (aZ : Vec 3 ℤ) (bQ : Vec 3 ℚ) :
    (cross_cpp a b 0 = a 1 * b 2 - a 2 * b 1
      ∧ cross_cpp a b 1 = a 2 * b 0 - a 0 * b 2
      ∧ cross_cpp a b 2 = a 0 * b 1 - a 1 * b 0)
    ∧ crossIntRat aZ bQ = cross_cpp (fun i => (aZ i : ℚ)) bQ
    ∧ cross_cpp (ofArgs [(1:ℚ), 0, 0] rfl) (ofArgs [(0:ℚ), 1, 0] rfl)
        = ofArgs [(0:ℚ), 0, 1] rfl := by
  refine ⟨⟨rfl, rfl, rfl⟩, ?_, ?_⟩
  · funext i
    fin_cases i <;> rfl
  · funext i
    fin_cases i <;> norm_num [cross_cpp, ofArgs]

/-- Claim C6: vector addition is commutative and associative for
same-dimension, same-scalar vectors, and `(1,2,3)+(4,5,6) = (5,7,9)`. -/
theorem C6_add_comm_assoc {n : ℕ} (a b c : Vec n ℚ) :
    add_cpp a b = add_cpp b a
    ∧ add_cpp (add_cpp a b) c = add_cpp a (add_cpp b c)
    ∧ add_cpp (n := 3) (ofArgs [(1:ℚ), 2, 3] rfl) (ofArgs [(4:ℚ), 5, 6] rfl)
        = ofArgs [(5:ℚ), 7, 9] rfl := by
  refine ⟨funext fun i => ?_, funext fun i => ?_, funext fun i => ?_⟩
  · rw [add_cpp_apply, add_cpp_apply, add_comm]
  · rw [add_cpp_apply, add_cpp_apply, add_cpp_apply, add_cpp_apply, add_assoc]
  · rw [add_cpp_apply]
    fin_cases i <;> norm_num [ofArgs]

/-- Claim C7: the full-arity constructor stores its `Dim` arguments one per
element in argument order (the arity gate `sizeof...(Args) == Dim` is the
compile-time length hypothesis), so indexed reads return them
unchanged — in particular for a 3-D integer vector built from three
scalars. -/
theorem C7_ctor_stores_in_order {n : ℕ} {α : Type} (l : List α)
    (h : l.length = n) (i : Fin n) (x y z : ℤ) :
    ofArgs l h i = l.get ⟨i.val, by rw [h]; exact i.isLt⟩
    ∧ ((ofArgs [x, y, z] rfl : Vec 3 ℤ) 0 = x
      ∧ (ofArgs [x, y, z] rfl : Vec 3 ℤ) 1 = y
      ∧ (ofArgs [x, y, z] rfl : Vec 3 ℤ) 2 = z) :=
  ⟨rfl, rfl, rfl, rfl⟩

/-- Witness for claim C7: constructing from `(10,20,30)` yields reads
`10, 20, 30` in order. -/
theorem C7_ctor_witness :
    [(10:ℤ), 20, 30].length = 3
    ∧ ((ofArgs [(10:ℤ), 20, 30] rfl : Vec 3 ℤ) 0 = 10
      ∧ (ofArgs [(10:ℤ), 20, 30] rfl : Vec 3 ℤ) 1 = 20
      ∧ (ofArgs [(10:ℤ), 20, 30] rfl : Vec 3 ℤ) 2 = 30) :=
  ⟨rfl, (C7_ctor_stores_in_order (n := 3) [(10:ℤ), 20, 30] rfl 0 10 20 30).2⟩

/-- Claim C8: `dim()` returns `Dim` for every dimension and scalar type,
and a default-constructed vector has every element equal to the scalar
zero, whatever indeterminate contents `g` the storage started with. -/
theorem C8_dim_and_zero_ctor {n : ℕ} (α : Type) [Zero α] (g : Vec n α)
    (i : Fin n) :
    vecDim n α = n ∧ defaultCtor g i = 0 :=
  ⟨rfl, defaultCtor_eq g i⟩

/-- Claim C9: `operator*(T scalar)` takes its scalar as the vector's own
element type `T`: a fractional `double` argument to an `int` vector is
truncated at the call boundary, every element is multiplied by the
truncated value in `T`, the result stays a `Vec n ℤ` (no promotion), the
commuted friend form returns exactly `v * s`, and multiplying by `2.5`
multiplies the elements by `2`. -/
theorem C9_scalar_mul_truncates {n : ℕ} (v : Vec n ℤ) (s : ℚ) (i : Fin n) :
    smulIntCall v s i = v i * truncQ s
    ∧ smulIntComm s v = smulIntCall v s
    ∧ smulIntCall v (5/2) i = v i * 2 := by
  refine ⟨smulInt_cpp_apply v (truncQ s) i, rfl, ?_⟩
  rw [smulIntCall, smulInt_cpp_apply]
  norm_num [truncQ]

/-- Claim C10: the dot product is symmetric, including across operands of
differing scalar types (the `int`/`double` instantiations agree after
promotion). -/
theorem C10_dot_symm {n : ℕ} (a b : Vec n ℚ) (aZ : Vec n ℤ) (bQ : Vec n ℚ) :
    dot_cpp a b = dot_cpp b a ∧ dotIntRat aZ bQ = dotRatInt bQ aZ :=
  ⟨dot_cpp_comm a b, dot_cpp_comm (fun i => (aZ i : ℚ)) bQ⟩

end Geometry
